import Mathlib

/-!
Shallow embedding of the `/analyze` endpoint of `src/main.py` (SmartCI
backend).  The external world (git subprocesses, the per-pair analyzer
subprocess, JSON parsing) is supplied as data in an `Env`.  Python's integer
arithmetic (`//` on non-negative ints) is natural-number division; Python's
float arithmetic (lines 159-160, 181, 187-191) is modelled bit-exactly as
IEEE-754 binary64 with round-to-nearest, ties-to-even, implemented over
integers (`roundQ`), with `int()` on a float as truncation toward zero
(`pyTruncF`).  All program values stay far inside the normal range of
binary64, so overflow and subnormals do not arise.
-/

namespace SmartCI

/-- A finite IEEE-754 binary64 value, as `m * 2^e` with `|m| < 2^53`. -/
structure F64 where
  m : ℤ
  e : ℤ
deriving DecidableEq

/-- Bit length of a natural number (`fuel`-bounded structural recursion;
`fuel = n` always suffices). -/
def bitlen : ℕ → ℕ → ℕ
  | 0, _ => 0
  | fuel + 1, n => if n = 0 then 0 else bitlen fuel (n / 2) + 1

/-- The binade exponent `t` with `2^t ≤ P/Q < 2^(t+1)`, for `P, Q > 0`. -/
def roundT (P Q : ℕ) : ℤ :=
  let t0 : ℤ := (bitlen P P : ℤ) - (bitlen Q Q : ℤ)
  if Q * 2 ^ t0.toNat ≤ P * 2 ^ (-t0).toNat then t0 else t0 - 1

/-- Mantissa of `P/Q` scaled into `[2^52, 2^53)` by `2^(52-t)` and rounded
to the nearest integer, ties to even. -/
def roundM (P Q : ℕ) (t : ℤ) : ℕ :=
  let A := P * 2 ^ (52 - t).toNat
  let B := Q * 2 ^ (t - 52).toNat
  let M := A / B
  let r := A % B
  if B < 2 * r then M + 1
  else if 2 * r < B then M
  else if M % 2 = 0 then M else M + 1

/-- Round the positive rational `P / Q` to the nearest binary64 (round half
to even): `(M, e)` with value `M * 2^e`. -/
def roundPos (P Q : ℕ) : ℕ × ℤ :=
  let t := roundT P Q
  let M2 := roundM P Q t
  if M2 = 2 ^ 53 then (2 ^ 52, t + 1 - 52) else (M2, t - 52)

/-- Round the rational `p / q` (`q ≠ 0`) to the nearest binary64. -/
def roundQ (p q : ℤ) : F64 :=
  if p = 0 then ⟨0, 0⟩
  else
    let neg : Bool := decide (p < 0) != decide (q < 0)
    let r := roundPos p.natAbs q.natAbs
    ⟨if neg then -(r.1 : ℤ) else (r.1 : ℤ), r.2⟩

/-- Exact conversion of a Python int to a float (all ints in this program
have magnitude well below `2^53`). -/
def intToF (k : ℤ) : F64 := roundQ k 1

/-- The value of a float as an integer fraction with positive denominator. -/
def fracOf (a : F64) : ℤ × ℤ :=
  if 0 ≤ a.e then (a.m * 2 ^ a.e.toNat, 1) else (a.m, 2 ^ (-a.e).toNat)

/-- Binary64 multiplication (correctly rounded). -/
def fmul (a b : F64) : F64 :=
  roundQ (a.m * b.m * 2 ^ (a.e + b.e).toNat) (2 ^ (-(a.e + b.e)).toNat)

/-- Binary64 division (correctly rounded). -/
def fdiv (a b : F64) : F64 :=
  roundQ ((fracOf a).1 * (fracOf b).2) ((fracOf a).2 * (fracOf b).1)

/-- Python `int()` on a float: truncation toward zero. -/
def pyTruncF (a : F64) : ℤ :=
  if 0 ≤ a.e then a.m * 2 ^ a.e.toNat else a.m.tdiv (2 ^ (-a.e).toNat)

/-- The exact rational value of a float (specification only). -/
def fval (a : F64) : ℚ :=
  (a.m : ℚ) * (2 : ℚ) ^ a.e

/-- The analyzer's structured verdict, as read from its JSON stdout
(`analysis` in `main.py`).  `mode = none` models a JSON object with no
`analysis_mode` key (its lookup raises `KeyError`, caught by the per-pair
handler); `changedFunctions` models `analysis.get('changed_functions', \x7b\x7d)`
as a list of (file, function-names) entries, `[]` when the key is absent. -/
structure Verdict where
  success : Bool
  mode : Option String
  changedFunctions : List (String × List String)
deriving DecidableEq

/-- Outcome of one per-pair `subprocess.run` of `smart_ci.py` plus the JSON
parse of its stdout: a timeout, or a completed process with a return code,
its stripped stdout, and `parsed = none` exactly when `json.loads` fails
(`JSONDecodeError`, or output not shaped like the expected object). -/
inductive ProcOutput where
  | timeout
  | run (returncode : ℤ) (stdoutStripped : String) (parsed : Option Verdict)
deriving DecidableEq

/-- `total_test_count = 1000 + (i * 50)` (main.py line 147). -/
def totalTests (i : ℕ) : ℕ := 1000 + i * 50

/-- Total count of changed function names across all files:
`sum(len(funcs) for funcs in analysis.get('changed_functions', \x7b\x7d).values())`
(main.py line 150). -/
def funcCount (cf : List (String × List String)) : ℕ :=
  (cf.map fun p => p.2.length).sum

/-- The classification interpreter (main.py lines 149-155): `selected` from
the analyzer's mode string and changed functions, at pair index `i`. -/
def selectTests (i : ℕ) (mode : String) (cf : List (String × List String)) : ℕ :=
  if mode = "smart_selection" then
    max 50 (funcCount cf * 15)
  else if mode = "no_changes" then 0
  else totalTests i

/-- `base_time = 1200 + (i * 30)` (main.py line 158). -/
def baseTime (i : ℕ) : ℕ := 1200 + i * 30

/-- `ratio = selected / total if total > 0 else 0; smart_time =
int(base_time * ratio)` (main.py lines 159-160): the ratio is the binary64
quotient, the product is a binary64 multiplication of the (exactly
converted) baseline with it, and `int()` truncates toward zero. -/
def smartTime (i : ℕ) (sel tot : ℕ) : ℕ :=
  if 0 < tot then (pyTruncF (fmul (intToF (baseTime i)) (roundQ sel tot))).toNat
  else 0

/-- The running sums of the analysis loop (main.py lines 107-111). -/
structure Acc where
  currentTime : ℕ
  smartTime : ℕ
  tests : ℕ
  selected : ℕ
  analyzed : ℕ
deriving DecidableEq

/-- One iteration of the per-pair loop body (main.py lines 117-170): a
timeout (or any other exception) is caught by the inner `except` and the
pair is skipped; a completed process contributes only when
`returncode == 0`, stdout is non-blank, the JSON parses, `success` is
truthy and `analysis_mode` is present. -/
def processPair (acc : Acc) (i : ℕ) (o : ProcOutput) : Acc :=
  match o with
  | .timeout => acc
  | .run rc out parsed =>
    if rc = 0 ∧ out ≠ "" then
      match parsed with
      | none => acc
      | some v =>
        if v.success then
          match v.mode with
          | none => acc
          | some m =>
            let tot := totalTests i
            let sel := selectTests i m v.changedFunctions
            { currentTime := acc.currentTime + baseTime i
              smartTime := acc.smartTime + smartTime i sel tot
              tests := acc.tests + tot
              selected := acc.selected + sel
              analyzed := acc.analyzed + 1 }
        else acc
    else acc

/-- The analysis loop `for i in range(numPairs)` (main.py line 113), folding
`processPair` over the pair indices from the zeroed accumulator. -/
def runLoop (outcomes : ℕ → ProcOutput) (numPairs : ℕ) : Acc :=
  (List.range numPairs).foldl (fun acc i => processPair acc i (outcomes i)) ⟨0, 0, 0, 0, 0⟩

/-- The adjacent (head, base) pairs the loop walks: index `i` of
`range(min(len(commits) - 1, 20))` yields `(commits[i], commits[i+1])`
(main.py lines 113-115). -/
def derivePairs (commits : List String) : List (String × String) :=
  (List.range (min (commits.length - 1) 20)).map
    fun i => (commits.getD i "", commits.getD (i + 1) "")

/-- Result of the `git clone` subprocess when it did not time out. -/
structure CloneRes where
  returncode : ℤ
  stderr : String
deriving DecidableEq

/-- The external world of one request: the clone result (`none` =
`TimeoutExpired`), the commit list parsed from `git log` (`none` =
`TimeoutExpired`), and the per-pair analyzer outcome at each index. -/
structure Env where
  cloneResult : Option CloneRes
  logResult : Option (List String)
  pairOutcomes : ℕ → ProcOutput

/-- Exceptions that can escape the `try` block of `analyze_repo`. -/
inductive Exc where
  | httpExc (status : ℕ) (detail : String)
  | timeoutExpired
deriving DecidableEq

def cloneFailMsg (stderr : String) : String :=
  "Failed to clone repository: " ++ stderr

def insufficientHistoryMsg : String :=
  "Repository must have at least 2 commits"

def noPairsMsg : String :=
  "No commits could be analyzed"

/-- The successful response body (main.py lines 195-205); `monthlySavingsUsd`
is the integer the endpoint formats as a dollar string. -/
structure Response where
  repoName : String
  currentTime : ℕ
  smartTime : ℕ
  savingsPercent : ℤ
  commitsAnalyzed : ℕ
  testsTotal : ℕ
  testsAvgSelected : ℕ
  monthlySavingsUsd : ℤ
deriving DecidableEq

/-- The savings projector (main.py lines 187-191): 100 engineers, 10
commits/day, 20 work days, 150k salary over 52×40 hours; every `/` and `*`
is a binary64 operation, `int()` truncates toward zero. -/
def dollarSavings (avgCurrent avgSmart : ℕ) : ℤ :=
  let minutesSaved := roundQ ((avgCurrent : ℤ) - (avgSmart : ℤ)) 60
  let dailySavings := fmul (fmul minutesSaved (intToF 10)) (intToF 100)
  let monthlySavings := fmul dailySavings (intToF 20)
  let hourlyRate := roundQ 150000 (52 * 40)
  pyTruncF (fmul (fdiv monthlySavings (intToF 60)) hourlyRate)

/-- `savings_pct = int(((avg_current - avg_smart) / avg_current) * 100)`
(main.py line 181): binary64 division and multiplication, truncated by
`int()`. -/
def savingsPct (avgCurrent avgSmart : ℕ) : ℤ :=
  pyTruncF (fmul (roundQ ((avgCurrent : ℤ) - (avgSmart : ℤ)) (avgCurrent : ℤ))
    (intToF 100))

/-- The aggregator reduction (main.py lines 172-205): the zero-pairs check
followed by the integer-truncated averages and the response record (the
source's locals `avg_current`, `avg_smart`, `avg_tests`, `avg_selected`
are inlined). -/
def reduceAcc (repoName : String) (acc : Acc) : Except Exc Response :=
  if acc.analyzed = 0 then
    .error (.httpExc 400 noPairsMsg)
  else
    .ok
      { repoName := repoName
        currentTime := acc.currentTime / acc.analyzed
        smartTime := acc.smartTime / acc.analyzed
        savingsPercent := savingsPct (acc.currentTime / acc.analyzed)
          (acc.smartTime / acc.analyzed)
        commitsAnalyzed := acc.analyzed
        testsTotal := acc.tests / acc.analyzed
        testsAvgSelected := acc.selected / acc.analyzed
        monthlySavingsUsd := dollarSavings (acc.currentTime / acc.analyzed)
          (acc.smartTime / acc.analyzed) }

/-- The body of the `try` block (main.py lines 72-205): clone, log,
history check, the per-pair loop, then the aggregator reduction.  Errors
are the exceptions the block raises. -/
def tryBody (repoName : String) (env : Env) : Except Exc Response :=
  match env.cloneResult with
  | none => .error .timeoutExpired
  | some cr =>
    if cr.returncode ≠ 0 then
      .error (.httpExc 400 (cloneFailMsg cr.stderr))
    else
      match env.logResult with
      | none => .error .timeoutExpired
      | some commits =>
        if commits.length < 2 then
          .error (.httpExc 400 insufficientHistoryMsg)
        else
          reduceAcc repoName (runLoop env.pairOutcomes (min (commits.length - 1) 20))

/-- `str(e)` of a starlette `HTTPException` is `f"{status_code}: {detail}"`. -/
def excMessage : Exc → String
  | .httpExc s d => toString s ++ ": " ++ d
  | .timeoutExpired => "TimeoutExpired"

/-- What the endpoint finally produces: a 200 response, an `HTTPException`
with a status and detail, or an exception that no handler in the function
catches (the `IndexError` of `parts[-2]`, raised before the `try`). -/
inductive HandlerResult where
  | ok (resp : Response)
  | httpError (status : ℕ) (detail : String)
  | unhandledFault (name : String)
deriving DecidableEq

/-- The `except` clauses (main.py lines 207-212): `TimeoutExpired` → 408;
any other exception — `HTTPException` included, since it subclasses
`Exception` — → `HTTPException(500, str(e))`. -/
def handleExc : Exc → HandlerResult
  | .timeoutExpired => .httpError 408 "Analysis timed out"
  | e => .httpError 500 (excMessage e)

/-- Python `s.split(sep)` for a one-character separator: splits at every
occurrence, keeping empty pieces; the result is never empty. -/
def pySplit (sep : Char) : List Char → List (List Char)
  | [] => [[]]
  | c :: cs =>
    if c = sep then [] :: pySplit sep cs
    else
      match pySplit sep cs with
      | [] => [[c]]
      | p :: ps => (c :: p) :: ps

/-- Python `s.rstrip(sep)` for a one-character strip set. -/
def pyRstrip (sep : Char) (l : List Char) : List Char :=
  (l.reverse.dropWhile (· == sep)).reverse

/-- Python `pat in s` (substring containment). -/
def pyContains : List Char → List Char → Bool
  | [], pat => pat.isEmpty
  | c :: cs, pat => pat.isPrefixOf (c :: cs) || pyContains cs pat

/-- Python `s.replace(pat, repl)`: replace every non-overlapping occurrence,
left to right.  `fuel` bounds the recursion; `s.length` is always enough,
as every step consumes at least one character of `s`. -/
def pyReplace : ℕ → List Char → List Char → List Char → List Char
  | 0, _, _, s => s
  | _, _, _, [] => []
  | fuel + 1, pat, repl, c :: cs =>
    if pat ≠ [] ∧ pat.isPrefixOf (c :: cs) then
      repl ++ pyReplace fuel pat repl (List.drop (pat.length - 1) cs)
    else
      c :: pyReplace fuel pat repl cs

/-- The whole endpoint (main.py lines 52-220).  The second component records
whether the temporary workspace was created (`tempfile.mkdtemp`, line 70)
during the call. -/
def analyze_repo (repoUrl : String) (env : Env) : HandlerResult × Bool :=
  if repoUrl = "" ∨ pyContains repoUrl.data "github.com".data = false then
    (.httpError 400 "Invalid GitHub URL", false)
  else
    let parts := pySplit '/' (pyRstrip '/' repoUrl.data)
    if parts.length < 2 then
      (.unhandledFault "IndexError", false)
    else
      let lastPart := parts.getLastD []
      let repoName := String.mk (pyReplace lastPart.length ".git".data [] lastPart)
      match tryBody repoName env with
      | .ok r => (.ok r, true)
      | .error e => (handleExc e, true)

/-- Whether a per-pair analyzer invocation failed in one of the ways §4.2
enumerates: timeout, non-zero exit status, empty output, malformed output. -/
def isPairFailure (o : ProcOutput) : Bool :=
  match o with
  | .timeout => true
  | .run rc out parsed => rc != 0 || out == "" || parsed.isNone

/-! ### Helper lemmas -/

lemma bitlen_zero (fuel : ℕ) : bitlen fuel 0 = 0 := by
  cases fuel <;> simp [bitlen]

lemma bitlen_upper : ∀ fuel n, n ≤ fuel → n < 2 ^ bitlen fuel n := by
  intro fuel
  induction fuel with
  | zero =>
    intro n h
    interval_cases n
    simp [bitlen]
  | succ f ih =>
    intro n h
    by_cases h0 : n = 0
    · subst h0
      simp [bitlen]
    · simp only [bitlen, if_neg h0]
      have h2 : n / 2 ≤ f := by omega
      have h3 := ih (n / 2) h2
      rw [pow_succ]
      omega

lemma bitlen_lower : ∀ fuel n, n ≤ fuel → 0 < n → 2 ^ (bitlen fuel n - 1) ≤ n := by
  intro fuel
  induction fuel with
  | zero => omega
  | succ f ih =>
    intro n h hn
    simp only [bitlen, if_neg (by omega : ¬ n = 0)]
    by_cases h1 : n / 2 = 0
    · rw [h1, bitlen_zero]
      simpa using hn
    · have h2 : n / 2 ≤ f := by omega
      have h3 := ih (n / 2) h2 (by omega)
      have h4 : 0 < bitlen f (n / 2) := by
        by_contra hb
        have hup := bitlen_upper f (n / 2) h2
        rw [Nat.eq_zero_of_not_pos hb] at hup
        simp at hup
        exact h1 hup
      rw [show bitlen f (n / 2) + 1 - 1 = bitlen f (n / 2) - 1 + 1 by omega, pow_succ]
      have h5 := Nat.div_add_mod n 2
      generalize hX : 2 ^ (bitlen f (n / 2) - 1) = X at h3
      omega

/-- If `P ≤ B * Q` with `B ≤ 2^52` then the chosen binade is at most 52. -/
lemma roundT_le (P Q B : ℕ) (hP : 0 < P) (_hQ : 0 < Q) (hB52 : B ≤ 2 ^ 52)
    (h : P ≤ B * Q) : roundT P Q ≤ 52 := by
  unfold roundT
  have hbp : 2 ^ (bitlen P P - 1) ≤ P := bitlen_lower P P le_rfl hP
  have hbq : Q < 2 ^ bitlen Q Q := bitlen_upper Q Q le_rfl
  have hB0 : 0 < B := Nat.pos_of_ne_zero fun h0 => by subst h0; simp at h; omega
  have hkey : 2 ^ (bitlen P P - 1) < 2 ^ (52 + bitlen Q Q) := by
    calc 2 ^ (bitlen P P - 1) ≤ P := hbp
      _ ≤ B * Q := h
      _ < 2 ^ 52 * 2 ^ bitlen Q Q := by
          calc B * Q < B * 2 ^ bitlen Q Q := by
                exact (Nat.mul_lt_mul_left hB0).mpr hbq
            _ ≤ 2 ^ 52 * 2 ^ bitlen Q Q := Nat.mul_le_mul_right _ hB52
      _ = 2 ^ (52 + bitlen Q Q) := by rw [pow_add]
  have hlt : bitlen P P - 1 < 52 + bitlen Q Q :=
    (Nat.pow_lt_pow_iff_right (by omega)).mp hkey
  have hle : (bitlen P P : ℤ) - bitlen Q Q ≤ 52 := by omega
  simp only [roundT]
  split
  · exact hle
  · omega

/-- The rounded mantissa respects the scaled bound `B * 2^(52-t)`. -/
lemma roundM_le (P Q B : ℕ) (hQ : 0 < Q) (ht : t ≤ 52)
    (h : P ≤ B * Q) : roundM P Q t ≤ B * 2 ^ (52 - t).toNat := by
  have ht0 : (t - 52).toNat = 0 := by omega
  simp only [roundM, ht0, pow_zero, Nat.mul_one]
  set s := (52 - t).toNat with hs
  set A := P * 2 ^ s with hA
  have hAle : A ≤ B * 2 ^ s * Q := by
    calc A = P * 2 ^ s := rfl
      _ ≤ B * Q * 2 ^ s := Nat.mul_le_mul_right _ h
      _ = B * 2 ^ s * Q := by ring
  have hMle : A / Q ≤ B * 2 ^ s := by
    have h1 := Nat.div_le_div_right (c := Q) hAle
    rwa [Nat.mul_div_cancel _ hQ] at h1
  have hrlt : A % Q < Q := Nat.mod_lt _ hQ
  have hr0 : A / Q = B * 2 ^ s → A % Q = 0 := by
    intro heq
    have h1 : Q * (A / Q) + A % Q = A := Nat.div_add_mod A Q
    rw [heq, Nat.mul_comm Q (B * 2 ^ s)] at h1
    generalize hW : B * 2 ^ s * Q = W at h1 hAle
    omega
  split
  · -- round up: Q < 2 * (A % Q)
    rename_i hup
    rcases Nat.lt_or_ge (A / Q) (B * 2 ^ s) with hlt | hge
    · omega
    · have heq : A / Q = B * 2 ^ s := le_antisymm hMle hge
      have := hr0 heq
      omega
  · split
    · exact hMle
    · split
      · exact hMle
      · rcases Nat.lt_or_ge (A / Q) (B * 2 ^ s) with hlt | hge
        · omega
        · rename_i hnup hnlo _
          have heq : A / Q = B * 2 ^ s := le_antisymm hMle hge
          have := hr0 heq
          omega

/-- A positive rational below a representable integer bound `B ≤ 2^52`
rounds to a value at most `B`. -/
lemma roundPos_le (P Q B : ℕ) (hP : 0 < P) (hQ : 0 < Q) (_hB : 0 < B)
    (hB52 : B ≤ 2 ^ 52) (h : P ≤ B * Q) :
    ((roundPos P Q).1 : ℚ) * (2 : ℚ) ^ (roundPos P Q).2 ≤ B := by
  simp only [roundPos]
  set t := roundT P Q with hT
  have ht52 : t ≤ 52 := roundT_le P Q B hP hQ hB52 h
  have hM := roundM_le P Q B hQ ht52 h
  set M2 := roundM P Q t with hM2
  set s := (52 - t).toNat with hs
  have hsz : (s : ℤ) = 52 - t := by omega
  have h2s : (0 : ℚ) < 2 ^ s := by positivity
  have hMq : (M2 : ℚ) ≤ (B : ℚ) * 2 ^ s := by exact_mod_cast hM
  split
  · -- overflow: M2 = 2^53, value is 2^(t+1)
    rename_i hov
    have hq : ((2 ^ 53 : ℕ) : ℚ) ≤ (B : ℚ) * 2 ^ s := by
      rw [← hov]
      exact hMq
    have hval : (((2 ^ 52 : ℕ) , t + 1 - 52).1 : ℚ) * (2 : ℚ) ^ ((2 ^ 52 , t + 1 - 52).2 : ℤ)
        = (2 : ℚ) ^ 53 / 2 ^ s := by
      show ((2 ^ 52 : ℕ) : ℚ) * (2 : ℚ) ^ (t + 1 - 52 : ℤ) = (2 : ℚ) ^ 53 / 2 ^ s
      rw [show (t + 1 - 52 : ℤ) = 1 - (s : ℤ) by omega,
        zpow_sub₀ (by norm_num : (2 : ℚ) ≠ 0), zpow_one, zpow_natCast]
      push_cast
      ring
    rw [hval, div_le_iff₀ h2s]
    calc (2 : ℚ) ^ 53 = ((2 ^ 53 : ℕ) : ℚ) := by push_cast; ring
      _ ≤ (B : ℚ) * 2 ^ s := hq
  · -- value is M2 * 2^(t-52)
    have hval : ((M2 , t - 52).1 : ℚ) * (2 : ℚ) ^ ((M2 , t - 52).2 : ℤ)
        = (M2 : ℚ) / 2 ^ s := by
      show (M2 : ℚ) * (2 : ℚ) ^ (t - 52 : ℤ) = (M2 : ℚ) / 2 ^ s
      rw [show (t - 52 : ℤ) = 0 - (s : ℤ) by omega,
        zpow_sub₀ (by norm_num : (2 : ℚ) ≠ 0), zpow_zero, zpow_natCast]
      ring
    rw [hval, div_le_iff₀ h2s]
    exact hMq

/-- Rounding a non-negative fraction below a representable bound `B`. -/
lemma roundQ_le (p q : ℤ) (B : ℕ) (h0p : 0 ≤ p) (h0q : 0 < q) (hB : 0 < B)
    (hB52 : B ≤ 2 ^ 52) (h : p ≤ B * q) : fval (roundQ p q) ≤ B := by
  unfold roundQ
  split
  · simp [fval]
  · rename_i hp0
    have hppos : 0 < p := lt_of_le_of_ne h0p (Ne.symm hp0)
    have hneg : (decide (p < 0) != decide (q < 0)) = false := by
      simp [decide_eq_false (not_lt.mpr h0p), decide_eq_false (not_lt.mpr (le_of_lt h0q))]
    simp only [hneg, Bool.false_eq_true, if_false, fval]
    have hnat : p.natAbs ≤ B * q.natAbs := by
      zify [Int.natAbs_of_nonneg h0p, Int.natAbs_of_nonneg (le_of_lt h0q)]
      exact_mod_cast h
    have := roundPos_le p.natAbs q.natAbs B
      (Int.natAbs_pos.mpr hp0) (Int.natAbs_pos.mpr (by omega)) hB hB52 hnat
    push_cast
    push_cast at this
    exact this

lemma roundQ_nonneg (p q : ℤ) (h0p : 0 ≤ p) (h0q : 0 < q) :
    0 ≤ fval (roundQ p q) := by
  simp only [roundQ]
  split
  · simp [fval]
  · rename_i hp0
    have hneg : (decide (p < 0) != decide (q < 0)) = false := by
      simp [decide_eq_false (not_lt.mpr h0p), decide_eq_false (not_lt.mpr (le_of_lt h0q))]
    simp only [hneg, Bool.false_eq_true, if_false, fval]
    positivity


lemma m_nonneg_of_fval (a : F64) (h : 0 ≤ fval a) : 0 ≤ a.m := by
  by_contra hneg
  push_neg at hneg
  have h2 : (0 : ℚ) < (2 : ℚ) ^ a.e := zpow_pos (by norm_num) _
  have h3 : (a.m : ℚ) * (2 : ℚ) ^ a.e < 0 :=
    mul_neg_of_neg_of_pos (by exact_mod_cast hneg) h2
  unfold fval at h
  linarith

lemma pow_toNat_split (sE : ℤ) :
    (2 : ℚ) ^ sE.toNat = (2 : ℚ) ^ sE * (2 : ℚ) ^ (-sE).toNat := by
  rw [← zpow_natCast (2 : ℚ) sE.toNat, ← zpow_natCast (2 : ℚ) (-sE).toNat,
    ← zpow_add₀ (by norm_num : (2 : ℚ) ≠ 0)]
  congr 1
  omega

/-- Multiplying two non-negative floats below representable bounds keeps the
correctly rounded product within the product bound. -/
lemma fmul_le (a b : F64) (A B : ℕ) (ha0 : 0 ≤ fval a) (hb0 : 0 ≤ fval b)
    (ha : fval a ≤ A) (hb : fval b ≤ B) (hAB : 0 < A * B) (hAB52 : A * B ≤ 2 ^ 52) :
    0 ≤ fval (fmul a b) ∧ fval (fmul a b) ≤ A * B := by
  have ham := m_nonneg_of_fval a ha0
  have hbm := m_nonneg_of_fval b hb0
  have hp0 : (0 : ℤ) ≤ a.m * b.m * 2 ^ (a.e + b.e).toNat := by positivity
  have hq0 : (0 : ℤ) < 2 ^ (-(a.e + b.e)).toNat := by positivity
  have hfrac : ((a.m * b.m * 2 ^ (a.e + b.e).toNat : ℤ) : ℚ)
      = fval a * fval b * ((2 ^ (-(a.e + b.e)).toNat : ℤ) : ℚ) := by
    unfold fval
    push_cast
    rw [pow_toNat_split (a.e + b.e), zpow_add₀ (by norm_num : (2 : ℚ) ≠ 0)]
    ring
  have hprod : fval a * fval b ≤ (A : ℚ) * B :=
    mul_le_mul ha hb hb0 (by positivity)
  have hple : a.m * b.m * 2 ^ (a.e + b.e).toNat
      ≤ ((A * B : ℕ) : ℤ) * 2 ^ (-(a.e + b.e)).toNat := by
    have hQle : ((a.m * b.m * 2 ^ (a.e + b.e).toNat : ℤ) : ℚ)
        ≤ (((A * B : ℕ) : ℤ) : ℚ) * ((2 ^ (-(a.e + b.e)).toNat : ℤ) : ℚ) := by
      rw [hfrac]
      apply mul_le_mul_of_nonneg_right _ (by positivity)
      push_cast
      exact hprod
    exact_mod_cast hQle
  constructor
  · unfold fmul
    exact roundQ_nonneg _ _ hp0 hq0
  · unfold fmul
    have hfin := roundQ_le _ _ (A * B) hp0 hq0 hAB hAB52 hple
    push_cast at hfin
    exact hfin

/-- `int()` of a non-negative float below a natural bound stays within it. -/
lemma pyTruncF_bounds (a : F64) (B : ℕ) (h0 : 0 ≤ fval a) (h : fval a ≤ B) :
    0 ≤ pyTruncF a ∧ pyTruncF a ≤ B := by
  have hm := m_nonneg_of_fval a h0
  unfold pyTruncF
  split
  · rename_i he
    refine ⟨by positivity, ?_⟩
    have hQ : ((a.m * 2 ^ a.e.toNat : ℤ) : ℚ) ≤ (B : ℚ) := by
      unfold fval at h
      push_cast
      rw [show (2 : ℚ) ^ a.e.toNat = (2 : ℚ) ^ a.e by
        rw [← zpow_natCast]
        congr 1
        omega]
      exact h
    exact_mod_cast hQ
  · rename_i he
    push_neg at he
    have hk : (0 : ℤ) < 2 ^ (-a.e).toNat := by positivity
    rw [Int.tdiv_eq_ediv hm (le_of_lt hk)]
    refine ⟨Int.ediv_nonneg hm (le_of_lt hk), ?_⟩
    have hmle : a.m ≤ (B : ℤ) * 2 ^ (-a.e).toNat := by
      have hQ : (a.m : ℚ) ≤ (B : ℚ) * ((2 ^ (-a.e).toNat : ℤ) : ℚ) := by
        unfold fval at h
        have h2 : (2 : ℚ) ^ a.e = ((2 : ℚ) ^ ((-a.e).toNat))⁻¹ := by
          rw [← zpow_natCast, ← zpow_neg]
          congr 1
          omega
        rw [h2] at h
        rw [mul_inv_le_iff₀ (by positivity)] at h
        push_cast
        linarith
      exact_mod_cast hQ
    calc a.m / 2 ^ (-a.e).toNat ≤ ((B : ℤ) * 2 ^ (-a.e).toNat) / 2 ^ (-a.e).toNat :=
          Int.ediv_le_ediv hk hmle
      _ = B := Int.mul_ediv_cancel _ (ne_of_gt hk)

/-- With a representable baseline and `selected ≤ total`, the simulated
smart time never exceeds the baseline: the rounded ratio is at most 1, the
rounded product at most the baseline, and truncation keeps the bound. -/
lemma smartTime_le_base (i sel tot : ℕ) (hbase : baseTime i ≤ 2 ^ 52)
    (hsel : sel ≤ tot) : smartTime i sel tot ≤ baseTime i := by
  unfold smartTime
  split
  · rename_i htot
    have htotZ : (0 : ℤ) < (tot : ℤ) := by exact_mod_cast htot
    have hselZ : (sel : ℤ) ≤ (1 : ℕ) * (tot : ℤ) := by
      push_cast
      omega
    have hr := roundQ_le (sel : ℤ) (tot : ℤ) 1 (by positivity) htotZ one_pos
      (by norm_num) hselZ
    have hr0 := roundQ_nonneg (sel : ℤ) (tot : ℤ) (by positivity) htotZ
    have hbpos : 0 < baseTime i := by unfold baseTime; omega
    have hb : fval (intToF (baseTime i)) ≤ (baseTime i : ℕ) := by
      unfold intToF
      exact roundQ_le (baseTime i : ℤ) 1 (baseTime i) (by positivity) one_pos hbpos
        hbase (by simp)
    have hb0 : 0 ≤ fval (intToF (baseTime i)) := by
      unfold intToF
      exact roundQ_nonneg (baseTime i : ℤ) 1 (by positivity) one_pos
    have hmul := fmul_le (intToF (baseTime i)) (roundQ (sel : ℤ) (tot : ℤ))
      (baseTime i) 1 hb0 hr0 hb (by exact_mod_cast hr) (by omega) (by omega)
    have htr := pyTruncF_bounds _ (baseTime i) hmul.1 (by
      have := hmul.2
      push_cast at this ⊢
      linarith)
    exact Int.toNat_le.mpr htr.2
  · exact Nat.zero_le _

/-- With one analyzed pair or more and `smart ≤ current`, the reported
percentage lies in `[0, 100]`. -/
lemma savingsPct_bounds (c s : ℕ) (hc : 0 < c) (hs : s ≤ c) :
    0 ≤ savingsPct c s ∧ savingsPct c s ≤ 100 := by
  unfold savingsPct
  have hp0 : (0 : ℤ) ≤ (c : ℤ) - (s : ℤ) := by omega
  have hq0 : (0 : ℤ) < (c : ℤ) := by exact_mod_cast hc
  have hple : (c : ℤ) - (s : ℤ) ≤ ((1 : ℕ) : ℤ) * (c : ℤ) := by
    push_cast
    omega
  have hr := roundQ_le ((c : ℤ) - (s : ℤ)) (c : ℤ) 1 hp0 hq0 one_pos (by norm_num) hple
  have hr0 := roundQ_nonneg ((c : ℤ) - (s : ℤ)) (c : ℤ) hp0 hq0
  have h100 : fval (intToF 100) ≤ ((100 : ℕ) : ℚ) := by
    unfold intToF
    exact roundQ_le 100 1 100 (by norm_num) one_pos (by norm_num) (by norm_num)
      (by norm_num)
  have h1000 : 0 ≤ fval (intToF 100) := by
    unfold intToF
    exact roundQ_nonneg 100 1 (by norm_num) one_pos
  have hmul := fmul_le (roundQ ((c : ℤ) - (s : ℤ)) (c : ℤ)) (intToF 100) 1 100
    hr0 h1000 (by exact_mod_cast hr) h100 (by norm_num) (by norm_num)
  have htr := pyTruncF_bounds _ 100 hmul.1 (by
    have := hmul.2
    push_cast at this ⊢
    linarith)
  exact htr

/-- A zero selection always simulates to a zero smart time. -/
lemma smartTime_zero_sel (i tot : ℕ) : smartTime i 0 tot = 0 := by
  unfold smartTime
  split
  · simp [roundQ, fmul, pyTruncF]
  · rfl

lemma smartTime_zero_tot (i sel : ℕ) : smartTime i sel 0 = 0 := rfl

/-- Every pair the loop counts contributes a baseline time of at least 1200:
one step preserves `1200 * analyzed ≤ currentTime`. -/
lemma processPair_inv (acc : Acc) (i : ℕ) (o : ProcOutput)
    (h : 1200 * acc.analyzed ≤ acc.currentTime) :
    1200 * (processPair acc i o).analyzed ≤ (processPair acc i o).currentTime := by
  rcases o with _ | ⟨rc, out, _ | ⟨succ, _ | m, cf⟩⟩
  · exact h
  · simp only [processPair]
    split
    · exact h
    · exact h
  · simp only [processPair]
    split
    · cases succ
      · exact h
      · exact h
    · exact h
  · simp only [processPair]
    split
    · cases succ
      · exact h
      · simp only [baseTime]
        simp only [if_pos trivial]
        omega
    · exact h

lemma foldl_inv (outcomes : ℕ → ProcOutput) (l : List ℕ) (acc : Acc)
    (h : 1200 * acc.analyzed ≤ acc.currentTime) :
    1200 * (l.foldl (fun a i => processPair a i (outcomes i)) acc).analyzed ≤
      (l.foldl (fun a i => processPair a i (outcomes i)) acc).currentTime := by
  induction l generalizing acc with
  | nil => exact h
  | cons x xs ih => exact ih _ (processPair_inv _ _ _ h)

/-- Across the whole loop, the baseline-time sum dominates `1200 * analyzed`. -/
lemma runLoop_inv (outcomes : ℕ → ProcOutput) (n : ℕ) :
    1200 * (runLoop outcomes n).analyzed ≤ (runLoop outcomes n).currentTime := by
  unfold runLoop
  exact foldl_inv outcomes (List.range n) ⟨0, 0, 0, 0, 0⟩ (by simp)

/-! ### Claims -/

/-- C1: the request layer's mapping of pipeline outcomes to status classes,
evaluated on one input per class.  A malformed URL yields 400 and a subprocess
timeout yields 408 as the claim states; but a clone failure, an insufficient
history, and a run with zero analyzed pairs are all surfaced as 500: the
`HTTPException(400, ...)` raised inside the `try` block is caught by the
blanket `except Exception` handler and re-raised as
`HTTPException(500, str(e))`. -/
theorem C1_status_class_mapping :
    analyze_repo "https://gitlab.com/x/y" ⟨none, none, fun _ => .timeout⟩
      = (.httpError 400 "Invalid GitHub URL", false) ∧
    analyze_repo "https://github.com/o/r"
        ⟨some ⟨1, "fatal: repository not found"⟩, none, fun _ => .timeout⟩
      = (.httpError 500 ("400: " ++ cloneFailMsg "fatal: repository not found"), true) ∧
    analyze_repo "https://github.com/o/r" ⟨some ⟨0, ""⟩, some ["a"], fun _ => .timeout⟩
      = (.httpError 500 ("400: " ++ insufficientHistoryMsg), true) ∧
    analyze_repo "https://github.com/o/r" ⟨some ⟨0, ""⟩, some ["a", "b"], fun _ => .timeout⟩
      = (.httpError 500 ("400: " ++ noPairsMsg), true) ∧
    analyze_repo "https://github.com/o/r" ⟨none, none, fun _ => .timeout⟩
      = (.httpError 408 "Analysis timed out", true) := by
  refine ⟨?_, ?_, ?_, ?_, ?_⟩ <;> decide

set_option maxRecDepth 20000 in
/-- C2 counterexample: a successful `smart_selection` verdict with 67 changed
function names at index 0 yields `selected_tests = 1005 > 1000 = total_tests`,
and the binary64 product `int(1200 * (1005/1000))` evaluates to
`smart_time = 1205 > 1200 = baseline_time`: the claimed invariants
`selected_tests ≤ total_tests` and `smart_time ≤ baseline_time` both fail. -/
theorem C2_counterexample :
    selectTests 0 "smart_selection" [("f.py", List.replicate 67 "g")] = 1005 ∧
    totalTests 0 = 1000 ∧
    smartTime 0 1005 1000 = 1205 ∧
    baseTime 0 = 1200 ∧
    ¬(selectTests 0 "smart_selection" [("f.py", List.replicate 67 "g")] ≤ totalTests 0 ∧
      smartTime 0 (selectTests 0 "smart_selection" [("f.py", List.replicate 67 "g")])
          (totalTests 0) ≤ baseTime 0) := by
  refine ⟨?_, ?_, ?_, ?_, ?_⟩ <;> decide

/-- C2 (amended): `selected_tests` is always non-negative; for every mode
other than `smart_selection` it is at most `total_tests(i)`; and at every
reachable pair index (`i < 20`, the loop cap) with
`selected_tests ≤ total_tests(i)`, the binary64-simulated smart time is at
most the baseline time.  (Under `smart_selection` with enough changed
functions, `selected_tests` exceeds `total_tests` and the smart time
exceeds the baseline, as the counterexample shows.) -/
theorem C2_metrics_invariant (i : ℕ) (m : String) (cf : List (String × List String)) :
    0 ≤ selectTests i m cf ∧
    (m ≠ "smart_selection" → selectTests i m cf ≤ totalTests i) ∧
    (i < 20 → selectTests i m cf ≤ totalTests i →
      smartTime i (selectTests i m cf) (totalTests i) ≤ baseTime i) := by
  refine ⟨Nat.zero_le _, ?_, ?_⟩
  · intro hm
    unfold selectTests
    rw [if_neg hm]
    split
    · exact Nat.zero_le _
    · exact le_refl _
  · intro hi hle
    apply smartTime_le_base _ _ _ _ hle
    unfold baseTime
    calc 1200 + i * 30 ≤ 1200 + 19 * 30 := by omega
      _ ≤ 2 ^ 52 := by norm_num

theorem C2_metrics_invariant_witness :
    0 ≤ selectTests 0 "no_changes" [] ∧
    selectTests 0 "no_changes" [] ≤ totalTests 0 ∧
    smartTime 0 (selectTests 0 "no_changes" []) (totalTests 0) ≤ baseTime 0 :=
  ⟨(C2_metrics_invariant 0 "no_changes" []).1,
   (C2_metrics_invariant 0 "no_changes" []).2.1 (by decide),
   (C2_metrics_invariant 0 "no_changes" []).2.2 (by decide)
     ((C2_metrics_invariant 0 "no_changes" []).2.1 (by decide))⟩

set_option maxRecDepth 20000 in
/-- C9: the savings projector at `avg_current = 1200`, `avg_smart = 0`
produces exactly 480769 dollars, the truncation of
`(400000 / 60) * (150000 / 2080)`. -/
theorem C9_monthly_savings_pinned :
    dollarSavings 1200 0 = 480769 ∧
    dollarSavings 1200 0 = ⌊((400000 : ℚ) / 60) * ((150000 : ℚ) / 2080)⌋ ∧
    ((1200 : ℚ) - 0) / 60 = 20 := by
  have h1 : dollarSavings 1200 0 = 480769 := by decide
  have h2 : ⌊((400000 : ℚ) / 60) * ((150000 : ℚ) / 2080)⌋ = 480769 := by norm_num
  exact ⟨h1, by rw [h1, h2], by norm_num⟩

/-- C10: any URL that contains the `github.com` marker but splits into fewer
than two `/`-separated segments passes the validation yet makes `parts[-2]`
raise an unhandled `IndexError` before the workspace is created: the request
fails with an unhandled fault, not the 400 `InvalidInput` rejection. -/
theorem C10_partial_extraction (url : String) (env : Env)
    (h1 : pyContains url.data "github.com".data = true)
    (h2 : (pySplit '/' (pyRstrip '/' url.data)).length < 2) :
    analyze_repo url env = (.unhandledFault "IndexError", false) := by
  unfold analyze_repo
  have hne : ¬(url = "" ∨ pyContains url.data "github.com".data = false) := by
    rintro (rfl | hc)
    · exact absurd h1 (by decide)
    · rw [hc] at h1
      cases h1
  rw [if_neg hne, if_pos h2]

theorem C10_partial_extraction_witness :
    analyze_repo "github.com" ⟨none, none, fun _ => .timeout⟩
      = (.unhandledFault "IndexError", false) :=
  C10_partial_extraction "github.com" ⟨none, none, fun _ => .timeout⟩
    (by decide) (by decide)


set_option maxRecDepth 40000 in
/-- C3 counterexample: with one analyzed pair whose smart-selection verdict
carries 67 changed functions, the averages are `avg_current = 1200`,
`avg_smart = 1205`, and the endpoint reports `savings_percent = 0` — the
binary64 value of `((1200-1205)/1200)*100` truncates toward zero — while the
claimed `floor(100 * (avg_current - avg_smart) / avg_current)` is `-1`.
Even with `avg_smart < avg_current` the code can undershoot the claimed
floor: at `(1200, 852)` the exact value is the integer 29, but the binary64
chain gives `28.999999999999996`, so the code reports 28. -/
theorem C3_counterexample :
    (analyze_repo "https://github.com/o/r"
        ⟨some ⟨0, ""⟩, some ["a", "b"],
          fun _ => .run 0 "x"
            (some ⟨true, some "smart_selection", [("f.py", List.replicate 67 "g")]⟩)⟩).1
      = .ok ⟨"r", 1200, 1205, 0, 1, 1000, 1005, -2003⟩ ∧
    ⌊100 * (((1200 : ℚ) - 1205) / 1200)⌋ = -1 ∧
    savingsPct 1200 1205 ≠ ⌊100 * (((1200 : ℚ) - 1205) / 1200)⌋ ∧
    savingsPct 1200 852 = 28 ∧
    ⌊100 * (((1200 : ℚ) - 852) / 1200)⌋ = 29 := by
  have h1 : savingsPct 1200 1205 = 0 := by decide
  have hfl : ⌊100 * (((1200 : ℚ) - 1205) / 1200)⌋ = -1 := by norm_num
  refine ⟨by decide, hfl, ?_, by decide, by norm_num⟩
  rw [h1, hfl]
  decide

/-- C3 (amended): on every successful run the response carries the
integer-truncated averages of the loop's sums; `savings_percent` is the
binary64 evaluation of `((avg_current - avg_smart) / avg_current) * 100`
truncated toward zero by `int()` — which can differ by one from the claimed
exact floor (see the counterexample) — and lies in `[0, 100]` whenever
`avg_smart ≤ avg_current`; the division is never by zero, not because of an
explicit guard (the code has none) but because `avg_current ≥ 1200`
whenever at least one pair was analyzed. -/
theorem C3_savings_reduction (nm : String) (env : Env) (r : Response)
    (h : tryBody nm env = .ok r) :
    (∃ commits, env.logResult = some commits ∧
      (runLoop env.pairOutcomes (min (commits.length - 1) 20)).analyzed ≠ 0 ∧
      r.currentTime = (runLoop env.pairOutcomes (min (commits.length - 1) 20)).currentTime
        / (runLoop env.pairOutcomes (min (commits.length - 1) 20)).analyzed ∧
      r.smartTime = (runLoop env.pairOutcomes (min (commits.length - 1) 20)).smartTime
        / (runLoop env.pairOutcomes (min (commits.length - 1) 20)).analyzed) ∧
    1200 ≤ r.currentTime ∧
    r.savingsPercent = savingsPct r.currentTime r.smartTime ∧
    (r.smartTime ≤ r.currentTime →
      0 ≤ r.savingsPercent ∧ r.savingsPercent ≤ 100) := by
  unfold tryBody at h
  split at h
  · exact absurd h (by simp)
  next cr =>
    split at h
    · exact absurd h (by simp)
    next hrc =>
      split at h
      · exact absurd h (by simp)
      next commits hcomm =>
        split at h
        · exact absurd h (by simp)
        next hlen =>
          unfold reduceAcc at h
          split at h
          · exact absurd h (by simp)
          next hz =>
            rw [Except.ok.injEq] at h
            subst h
            have hinv := runLoop_inv env.pairOutcomes (min (commits.length - 1) 20)
            have hcur : 1200 ≤
                (runLoop env.pairOutcomes (min (commits.length - 1) 20)).currentTime
                  / (runLoop env.pairOutcomes (min (commits.length - 1) 20)).analyzed :=
              (Nat.le_div_iff_mul_le (Nat.pos_of_ne_zero hz)).mpr hinv
            refine ⟨⟨commits, hcomm, hz, rfl, rfl⟩, hcur, rfl, ?_⟩
            intro hle
            exact savingsPct_bounds _ _ (by omega) hle

set_option maxRecDepth 40000 in
theorem C3_savings_reduction_witness :
    1200 ≤ (1200 : ℕ) ∧
    (100 : ℤ) = savingsPct 1200 0 ∧
    0 ≤ (100 : ℤ) ∧ (100 : ℤ) ≤ 100 := by
  have key : tryBody "r" ⟨some ⟨0, ""⟩, some ["a", "b"],
      fun _ => .run 0 "x" (some ⟨true, some "no_changes", []⟩)⟩
      = .ok ⟨"r", 1200, 0, savingsPct 1200 0, 1, 1000, 0, dollarSavings 1200 0⟩ := rfl
  have h100 : savingsPct 1200 0 = 100 := by decide
  have h480 : dollarSavings 1200 0 = 480769 := by decide
  have hok : tryBody "r" ⟨some ⟨0, ""⟩, some ["a", "b"],
      fun _ => .run 0 "x" (some ⟨true, some "no_changes", []⟩)⟩
      = .ok ⟨"r", 1200, 0, 100, 1, 1000, 0, 480769⟩ := by
    rw [key, h100, h480]
  have main := C3_savings_reduction "r"
    ⟨some ⟨0, ""⟩, some ["a", "b"], fun _ => .run 0 "x" (some ⟨true, some "no_changes", []⟩)⟩
    ⟨"r", 1200, 0, 100, 1, 1000, 0, 480769⟩ hok
  exact ⟨main.2.1, main.2.2.1, main.2.2.2 (by decide)⟩

/-- C4: the classification interpreter at every index and verdict:
`total_tests(i) = 1000 + 50*i`; `smart_selection` yields
`max(50, 15*f)` for `f` the total changed-function count; `no_changes`
yields 0; `full_run` and every unrecognized mode yield `total_tests(i)`;
and a successful verdict with any mode present never fails the pair — the
loop counts it as analyzed. -/
theorem C4_classification (i : ℕ) (cf : List (String × List String)) (m : String)
    (acc : Acc) (v : Verdict) :
    totalTests i = 1000 + 50 * i ∧
    selectTests i "smart_selection" cf = max 50 (15 * funcCount cf) ∧
    selectTests i "no_changes" cf = 0 ∧
    selectTests i "full_run" cf = totalTests i ∧
    (m ≠ "smart_selection" → m ≠ "no_changes" → selectTests i m cf = totalTests i) ∧
    (v.success = true → v.mode = some m →
      (processPair acc i (.run 0 "json" (some v))).analyzed = acc.analyzed + 1) := by
  refine ⟨by unfold totalTests; ring, ?_, ?_, ?_, ?_, ?_⟩
  · unfold selectTests
    rw [if_pos rfl, Nat.mul_comm]
  · unfold selectTests
    rw [if_neg (by decide), if_pos rfl]
  · unfold selectTests
    rw [if_neg (by decide), if_neg (by decide)]
  · intro h1 h2
    unfold selectTests
    rw [if_neg h1, if_neg h2]
  · intro hs hm
    rcases v with ⟨succ, mode, cf2⟩
    simp only at hs hm
    subst hs
    subst hm
    rfl

theorem C4_classification_witness :
    totalTests 3 = 1000 + 50 * 3 ∧
    selectTests 3 "smart_selection" [("a.py", ["f", "g"])]
      = max 50 (15 * funcCount [("a.py", ["f", "g"])]) ∧
    selectTests 3 "no_changes" [("a.py", ["f", "g"])] = 0 ∧
    selectTests 3 "full_run" [("a.py", ["f", "g"])] = totalTests 3 ∧
    selectTests 3 "weird_mode" [("a.py", ["f", "g"])] = totalTests 3 ∧
    (processPair ⟨1, 2, 3, 4, 5⟩ 3
        (.run 0 "json" (some ⟨true, some "weird_mode", []⟩))).analyzed = 5 + 1 := by
  obtain ⟨a, b, c, d, e, f⟩ :=
    C4_classification 3 [("a.py", ["f", "g"])] "weird_mode" ⟨1, 2, 3, 4, 5⟩
      ⟨true, some "weird_mode", []⟩
  exact ⟨a, b, c, d, e (by decide) (by decide), f rfl rfl⟩

set_option maxRecDepth 20000 in
/-- C5 counterexample: the claim `smart_time = floor(baseline_time(i) *
ratio)` fails on the code: at index 0 with 19 changed functions the
selection is `max(50, 15*19) = 285`, the exact floor of `1200 * (285/1000)`
is 342, but the binary64 chain `int(1200 * 0.285)` evaluates to 341 (the
double product is `341.99999999999994`). -/
theorem C5_counterexample :
    selectTests 0 "smart_selection" [("f.py", List.replicate 19 "g")] = 285 ∧
    smartTime 0 285 1000 = 341 ∧
    ⌊(1200 : ℚ) * ((285 : ℚ) / 1000)⌋ = 342 ∧
    (smartTime 0 285 1000 : ℤ) ≠ ⌊(1200 : ℚ) * ((285 : ℚ) / 1000)⌋ := by
  have h2 : smartTime 0 285 1000 = 341 := by decide
  have h3 : ⌊(1200 : ℚ) * ((285 : ℚ) / 1000)⌋ = 342 := by norm_num
  refine ⟨by decide, h2, h3, ?_⟩
  rw [h2, h3]
  decide

/-- C5 (amended): the metrics simulator is a pure deterministic function of
`(total_tests, selected_tests, i)` — inherent to `smartTime` being a
function of exactly these inputs; the baseline is `1200 + 30*i`; a zero
total or zero selection yields a zero smart time; and at every reachable
pair index (`i < 20`) with `selected ≤ total` the binary64-computed
`smart_time = int(baseline * (selected/total))` is at most the baseline.
It is not always the exact floor of `baseline * selected/total`: the
double product can land just below an exactly-integer value (see the
counterexample). -/
theorem C5_metrics_simulator (i sel tot : ℕ) :
    baseTime i = 1200 + 30 * i ∧
    smartTime i sel 0 = 0 ∧
    smartTime i 0 tot = 0 ∧
    (i < 20 → sel ≤ tot → smartTime i sel tot ≤ baseTime i) := by
  refine ⟨by unfold baseTime; ring, smartTime_zero_tot i sel,
    smartTime_zero_sel i tot, ?_⟩
  intro hi hle
  apply smartTime_le_base _ _ _ _ hle
  unfold baseTime
  calc 1200 + i * 30 ≤ 1200 + 19 * 30 := by omega
    _ ≤ 2 ^ 52 := by norm_num

set_option maxRecDepth 20000 in
theorem C5_metrics_simulator_witness :
    baseTime 1 = 1200 + 30 * 1 ∧
    smartTime 1 700 0 = 0 ∧
    smartTime 1 0 1050 = 0 ∧
    smartTime 1 700 1050 ≤ baseTime 1 :=
  ⟨(C5_metrics_simulator 1 700 1050).1, (C5_metrics_simulator 1 700 1050).2.1,
   (C5_metrics_simulator 1 700 1050).2.2.1,
   (C5_metrics_simulator 1 700 1050).2.2.2 (by decide) (by decide)⟩

/-- C6: a per-pair failure — timeout, non-zero exit, empty output, or
malformed output — leaves the accumulator untouched (the loop simply
advances to the next index), and no error the pipeline body raises stems
from a pair: every raised error is a clone/log timeout, a clone failure,
insufficient history, or the no-pairs-analyzed terminal check. -/
theorem C6_failure_isolation :
    (∀ (acc : Acc) (i : ℕ) (o : ProcOutput),
      isPairFailure o = true → processPair acc i o = acc) ∧
    (∀ (nm : String) (env : Env) (e : Exc), tryBody nm env = .error e →
      e = .timeoutExpired ∨ (∃ s, e = .httpExc 400 (cloneFailMsg s)) ∨
      e = .httpExc 400 insufficientHistoryMsg ∨ e = .httpExc 400 noPairsMsg) := by
  constructor
  · intro acc i o hfail
    rcases o with _ | ⟨rc, out, parsed⟩
    · rfl
    · rcases parsed with _ | v
      · simp only [processPair]
        split
        · rfl
        · rfl
      · simp only [isPairFailure, Option.isNone_some, Bool.or_false, Bool.or_eq_true,
          bne_iff_ne, ne_eq, beq_iff_eq] at hfail
        simp only [processPair]
        rw [if_neg]
        rintro ⟨hrc, hout⟩
        rcases hfail with hf | hf
        · exact hf hrc
        · exact hout hf
  · intro nm env e h
    unfold tryBody at h
    split at h
    · injection h with h2
      exact Or.inl h2.symm
    · split at h
      · injection h with h2
        exact Or.inr (Or.inl ⟨_, h2.symm⟩)
      · split at h
        · injection h with h2
          exact Or.inl h2.symm
        · split at h
          · injection h with h2
            exact Or.inr (Or.inr (Or.inl h2.symm))
          · unfold reduceAcc at h
            split at h
            · injection h with h2
              exact Or.inr (Or.inr (Or.inr h2.symm))
            · exact absurd h (by simp)

theorem C6_failure_isolation_witness :
    processPair ⟨7, 7, 7, 7, 7⟩ 0 ProcOutput.timeout = ⟨7, 7, 7, 7, 7⟩ ∧
    (Exc.timeoutExpired = Exc.timeoutExpired ∨
      (∃ s, Exc.timeoutExpired = Exc.httpExc 400 (cloneFailMsg s)) ∨
      Exc.timeoutExpired = Exc.httpExc 400 insufficientHistoryMsg ∨
      Exc.timeoutExpired = Exc.httpExc 400 noPairsMsg) :=
  ⟨C6_failure_isolation.1 ⟨7, 7, 7, 7, 7⟩ 0 ProcOutput.timeout (by decide),
   C6_failure_isolation.2 "r" ⟨none, none, fun _ => .timeout⟩ .timeoutExpired rfl⟩

/-- C7: once the run reaches the loop (clone succeeded, at least 2 commits),
the no-pairs-analyzed error is raised exactly when the loop counted zero
analyzed pairs, and one analyzed pair already guarantees a success
response instead. -/
theorem C7_no_pairs_iff (nm : String) (env : Env) (cr : CloneRes) (commits : List String)
    (h1 : env.cloneResult = some cr) (h2 : cr.returncode = 0)
    (h3 : env.logResult = some commits) (h4 : 2 ≤ commits.length) :
    (tryBody nm env = .error (.httpExc 400 noPairsMsg) ↔
      (runLoop env.pairOutcomes (min (commits.length - 1) 20)).analyzed = 0) ∧
    ((runLoop env.pairOutcomes (min (commits.length - 1) 20)).analyzed ≠ 0 →
      ∃ r, tryBody nm env = .ok r) := by
  have h5 : ¬(commits.length < 2) := by omega
  simp only [tryBody, h1, h2, h3, h5, ne_eq, not_true_eq_false, not_false_eq_true,
    if_false, if_true, ite_false, ite_true, reduceIte]
  unfold reduceAcc
  by_cases hz : (runLoop env.pairOutcomes (min (commits.length - 1) 20)).analyzed = 0
  · simp [hz]
  · simp [hz]

theorem C7_no_pairs_iff_witness :
    tryBody "r" ⟨some ⟨0, ""⟩, some ["a", "b"], fun _ => .timeout⟩
      = .error (.httpExc 400 noPairsMsg) :=
  ((C7_no_pairs_iff "r" ⟨some ⟨0, ""⟩, some ["a", "b"], fun _ => .timeout⟩
      ⟨0, ""⟩ ["a", "b"] rfl rfl rfl (by decide)).1).mpr (by decide)

/-- C8: with `n ≥ 2` commits listed newest first, the walked pairs number
exactly `min(n-1, 20)`, and the pair at index `i` is
`(head = commits[i], base = commits[i+1])`; with fewer than 2 commits the
body raises the insufficient-history error instead. -/
theorem C8_history_pairs (commits : List String) (h : 2 ≤ commits.length) :
    ((derivePairs commits).length = min (commits.length - 1) 20 ∧
      ∀ (i : ℕ) (hi : i + 1 < commits.length) (hp : i < (derivePairs commits).length),
        (derivePairs commits)[i] = (commits[i], commits[i + 1])) ∧
    ∀ (nm : String) (env : Env) (cr : CloneRes) (cs : List String),
      env.cloneResult = some cr → cr.returncode = 0 → env.logResult = some cs →
      cs.length < 2 →
      tryBody nm env = .error (.httpExc 400 insufficientHistoryMsg) := by
  refine ⟨⟨by simp [derivePairs], ?_⟩, ?_⟩
  · intro i hi hp
    simp only [derivePairs, List.length_map, List.length_range] at hp
    simp only [derivePairs, List.getElem_map, List.getElem_range]
    rw [List.getD_eq_getElem commits "" (by omega),
      List.getD_eq_getElem commits "" (by omega)]
  · intro nm env cr cs e1 e2 e3 e4
    simp only [tryBody, e1, e2, e3, e4, ne_eq, not_true_eq_false, not_false_eq_true,
      if_false, if_true, ite_false, ite_true, reduceIte]

theorem C8_history_pairs_witness :
    (derivePairs ["a", "b", "c"]).length = min ((["a", "b", "c"] : List String).length - 1) 20 ∧
    tryBody "r" ⟨some ⟨0, ""⟩, some ["x"], fun _ => .timeout⟩
      = .error (.httpExc 400 insufficientHistoryMsg) :=
  ⟨(C8_history_pairs ["a", "b", "c"] (by decide)).1.1,
   (C8_history_pairs ["a", "b", "c"] (by decide)).2 "r"
     ⟨some ⟨0, ""⟩, some ["x"], fun _ => .timeout⟩ ⟨0, ""⟩ ["x"] rfl rfl rfl (by decide)⟩

end SmartCI
